import Mathlib

/-!
Shallow embedding of the `speed_heuristics_checker` tool (src/unnamed/part_000).

The tool fetches a page, extracts `<script …>…</script>` and `<img …>` elements
from the raw HTML text with regular expressions, accumulates counts in local
mutable variables, computes a penalty score starting from 100, and formats a
list of notes.  Here the HTML text is a Lean `String` (a list of Unicode
scalar values); the JavaScript regular expressions are embedded as explicit
scanning functions over `List Char` that reproduce the regex semantics for the
concrete patterns used by the source:

* `/<script\b([^>]*)>([\s\S]*?)<\/script>/gi` and `/<img\b([^>]*?)>/gi`
  (non-overlapping left-to-right matching, continuing after each match);
* attribute tests `/\bdefer\b/i`, `/\basync\b/i`,
  `/\bsrc\s*=\s*["'][^"']+["']/i`, `/\bloading\s*=\s*["']lazy["']/i`,
  `/\bsrc\s*=\s*["']([^"']+)["']/i`, `/\bwidth\s*=\s*["'](\d+)["']/i`,
  `/\bheight\s*=\s*["'](\d+)["']/i` (leftmost match).

Case-insensitive (`/i`) matching is embedded as ASCII case folding, which for
these ASCII-only patterns agrees with the ECMAScript canonicalisation used in
non-unicode mode.  `Buffer.byteLength(s, 'utf8')` is the UTF-8 byte length of
the string.  JavaScript numbers are embedded as `Int`/`Nat`: every quantity
involved is an integer far below 2^53, where double arithmetic is exact, and
the single rational comparison `noLazy / totalImages > 0.5` is embedded as the
exact integer comparison `2 * noLazy > totalImages` (division by a power of
two and the comparison with 0.5 are exact in doubles at these magnitudes).
-/

namespace SpeedCheck

/-- ECMAScript `\w` word characters, `[A-Za-z0-9_]`. -/
def isWordChar (c : Char) : Bool :=
  ('a' ≤ c && c ≤ 'z') || ('A' ≤ c && c ≤ 'Z') || ('0' ≤ c && c ≤ '9') || c == '_'

/-- ASCII lower-casing of one character (the case folding performed by `/i`
on the ASCII-only patterns of the source, and by `toLowerCase` on the
characters relevant to the `.png`/`.jpg`/`.jpeg` suffix tests). -/
def lowerAscii (c : Char) : Char :=
  if 'A' ≤ c && c ≤ 'Z' then Char.ofNat (c.toNat + 32) else c

/-- Case-insensitive character comparison. -/
def charIEq (a b : Char) : Bool := lowerAscii a == lowerAscii b

/-- ECMAScript `\s`: WhiteSpace plus LineTerminator code points
(space, tab, LF, VT, FF, CR, NBSP, Ogham space, the U+2000 block, LS, PS,
NNBSP, MMSP, ideographic space and the BOM). -/
def isJsSpace (c : Char) : Bool :=
  c.toNat == 32 || c.toNat == 9 || c.toNat == 10 || c.toNat == 11 ||
  c.toNat == 12 || c.toNat == 13 || c.toNat == 0xa0 || c.toNat == 0x1680 ||
  (0x2000 ≤ c.toNat && c.toNat ≤ 0x200a) || c.toNat == 0x2028 ||
  c.toNat == 0x2029 || c.toNat == 0x202f || c.toNat == 0x205f ||
  c.toNat == 0x3000 || c.toNat == 0xfeff

/-- The regex character class `["']`: a double or single quote. -/
def isQuote (c : Char) : Bool := c.toNat == 34 || c.toNat == 39

/-- Match a literal token case-insensitively at the head of the input,
returning the remainder on success (the engine's behaviour on a literal). -/
def matchLitCI : List Char → List Char → Option (List Char)
  | [], s => some s
  | _ :: _, [] => none
  | p :: ps, c :: cs => if charIEq p c then matchLitCI ps cs else none

/-- Case-insensitive equality of two character sequences of equal length. -/
def ciEqList : List Char → List Char → Bool
  | [], [] => true
  | a :: as, b :: bs => charIEq a b && ciEqList as bs
  | _, _ => false

/-- The character immediately before the current scan position: the last
character of the consumed prefix, or the scanner's inherited previous
character when nothing was consumed. -/
def prevOf (prev : Option Char) : List Char → Option Char
  | [] => prev
  | c :: pre => prevOf (some c) pre

/-- The value `parseInt(ds, 10)` of a string of decimal digits. -/
def digitsVal (ds : List Char) : Nat :=
  ds.foldl (fun n c => n * 10 + (c.toNat - 48)) 0

/-- Regex `\b` at the right edge of a word-character token: the next character, if
any, is not a word character. -/
def boundaryOk : List Char → Bool
  | [] => true
  | c :: _ => !isWordChar c

/-- Regex `\b` at the left edge of a word-character token: the previous character,
if any, is not a word character. -/
def boundaryPrev : Option Char → Bool
  | none => true
  | some p => !isWordChar p

/-- Leftmost-match scan: try the positional matcher `g` at every position,
left to right, threading the previous character for the `\b` test, and return
the first result.  This is `.match` / `.test` semantics for the `\b…`-shaped
attribute patterns of the source. -/
def scanFirst {α : Type} (g : List Char → Option α) : Option Char → List Char → Option α
  | _, [] => none
  | prev, c :: cs =>
    match (if boundaryPrev prev then g (c :: cs) else none) with
    | some v => some v
    | none => scanFirst g (some c) cs

/-- Positional matcher for `\btok\b` (token made of word characters):
the token matches case-insensitively here and is followed by a boundary. -/
def boundMatch (tok : List Char) (l : List Char) : Option Unit :=
  match matchLitCI tok l with
  | some rest => if boundaryOk rest then some () else none
  | none => none

/-- The test `/\btok\b/i.test(s)` for a word-character token. -/
def testWord (tok s : List Char) : Bool := (scanFirst (boundMatch tok) none s).isSome

/-- Positional matcher for `src\s*=\s*["']([^"']+)["']` (after the `\b`):
returns the captured non-empty quote-free value. -/
def trySrcDecl (l : List Char) : Option (List Char) :=
  match matchLitCI "src".data l with
  | none => none
  | some rest =>
    match rest.dropWhile isJsSpace with
    | [] => none
    | e :: rest2 =>
      if e = '=' then
        match rest2.dropWhile isJsSpace with
        | [] => none
        | q :: rest4 =>
          if isQuote q then
            match rest4.dropWhile (fun c => !isQuote c) with
            | _ :: _ =>
              if (rest4.takeWhile (fun c => !isQuote c)).isEmpty then none
              else some (rest4.takeWhile (fun c => !isQuote c))
            | [] => none
          else none
      else none

/-- Positional matcher for `tok\s*=\s*["'](\d+)["']` (after the `\b`):
returns the parsed integer value of the digit string (`parseInt(d, 10)`). -/
def tryNumDecl (tok : List Char) (l : List Char) : Option Nat :=
  match matchLitCI tok l with
  | none => none
  | some rest =>
    match rest.dropWhile isJsSpace with
    | [] => none
    | e :: rest2 =>
      if e = '=' then
        match rest2.dropWhile isJsSpace with
        | [] => none
        | q :: rest4 =>
          if isQuote q then
            match rest4.dropWhile Char.isDigit with
            | q2 :: _ =>
              if (rest4.takeWhile Char.isDigit).isEmpty then none
              else if isQuote q2 then
                some (digitsVal (rest4.takeWhile Char.isDigit)) else none
            | [] => none
          else none
      else none

/-- Positional matcher for `loading\s*=\s*["']lazy["']` (after the `\b`). -/
def tryLazyDecl (l : List Char) : Option Unit :=
  match matchLitCI "loading".data l with
  | none => none
  | some rest =>
    match rest.dropWhile isJsSpace with
    | [] => none
    | e :: rest2 =>
      if e = '=' then
        match rest2.dropWhile isJsSpace with
        | [] => none
        | q :: rest4 =>
          if isQuote q then
            match matchLitCI "lazy".data rest4 with
            | none => none
            | some rest5 =>
              match rest5 with
              | [] => none
              | q2 :: _ => if isQuote q2 then some () else none
          else none
      else none

/-- The script `hasSrc` flag, `/\bsrc\s*=\s*["'][^"']+["']/i.test(attrs)`. -/
def hasSrcAttr (attrs : List Char) : Bool := (scanFirst trySrcDecl none attrs).isSome

/-- The image `hasLazy` flag, `/\bloading\s*=\s*["']lazy["']/i.test(attrs)`. -/
def hasLazyAttr (attrs : List Char) : Bool := (scanFirst tryLazyDecl none attrs).isSome

/-- The value `attrs.match(/\bsrc\s*=\s*["']([^"']+)["']/i)`, then `.toLowerCase()` of
the captured value, with `''` when there is no match (`srcVal`). -/
def srcValOf (attrs : List Char) : List Char :=
  match scanFirst trySrcDecl none attrs with
  | some v => v.map lowerAscii
  | none => []

/-- The value `widthMatch ? parseInt(widthMatch[1], 10) : null` (`widthVal`). -/
def widthValOf (attrs : List Char) : Option Nat :=
  scanFirst (tryNumDecl "width".data) none attrs

/-- The value `heightMatch ? parseInt(heightMatch[1], 10) : null` (`heightVal`). -/
def heightValOf (attrs : List Char) : Option Nat :=
  scanFirst (tryNumDecl "height".data) none attrs

/-- The test `v && v > 1000` for a nullable parsed dimension (0 is falsy in JS, and
also fails `> 1000`, so the truthiness test adds nothing). -/
def bigDim : Option Nat → Bool
  | none => false
  | some n => decide (1000 < n)

/-- The "suspected large" image test of the source: the lower-cased `src`
value ends with `.png`, `.jpg` or `.jpeg`, and `width` or `height` parses to
a value greater than 1000. -/
def isSuspectedLarge (attrs : List Char) : Bool :=
  let srcVal := srcValOf attrs
  (".png".data.isSuffixOf srcVal || ".jpg".data.isSuffixOf srcVal ||
      ".jpeg".data.isSuffixOf srcVal)
    && (bigDim (widthValOf attrs) || bigDim (heightValOf attrs))

/-- One match of `/<script\b([^>]*)>([\s\S]*?)<\/script>/gi`: the captured
attribute text and body text. -/
structure ScriptMatch where
  attrs : List Char
  body : List Char
deriving DecidableEq, Repr

/-- Lazy search for the closing literal (`([\s\S]*?)close`): the body up to
the earliest case-insensitive occurrence of `close`, and the remainder after
it. -/
def findClose (close : List Char) : List Char → Option (List Char × List Char)
  | [] => none
  | c :: cs =>
    match matchLitCI close (c :: cs) with
    | some rest => some ([], rest)
    | none =>
      match findClose close cs with
      | some (body, rest) => some (c :: body, rest)
      | none => none

/-- Attempt `/<script\b([^>]*)>([\s\S]*?)<\/script>/i` at the head of the
input; on success return the match's captures and the remainder after the
whole match.  `[^>]*` (greedy or lazy alike) reaches exactly to the first
`>`. -/
def tryScript (l : List Char) : Option (ScriptMatch × List Char) :=
  match matchLitCI "<script".data l with
  | none => none
  | some rest =>
    if boundaryOk rest then
      let attrs := rest.takeWhile (fun c => c != '>')
      match rest.dropWhile (fun c => c != '>') with
      | '>' :: rest2 =>
        match findClose "</script>".data rest2 with
        | some (body, rem) => some (⟨attrs, body⟩, rem)
        | none => none
      | _ => none
    else none

/-- Attempt `/<img\b([^>]*?)>/i` at the head of the input; on success return
the attribute capture and the remainder after the `>`. -/
def tryImg (l : List Char) : Option (List Char × List Char) :=
  match matchLitCI "<img".data l with
  | none => none
  | some rest =>
    if boundaryOk rest then
      match rest.dropWhile (fun c => c != '>') with
      | '>' :: rest2 => some (rest.takeWhile (fun c => c != '>'), rest2)
      | _ => none
    else none

/-- The `matchAll` scan: at each position try the matcher; on success emit the
match and continue after it, otherwise advance one character.  `fuel` bounds
the recursion; since every step consumes at least one character, fuel equal
to the input length never truncates the scan. -/
def scanAll {α : Type} (try1 : List Char → Option (α × List Char)) :
    Nat → List Char → List α
  | 0, _ => []
  | _ + 1, [] => []
  | fuel + 1, c :: cs =>
    match try1 (c :: cs) with
    | some (m, rem) => m :: scanAll try1 fuel rem
    | none => scanAll try1 fuel cs

/-- The array `[...html.matchAll(/<script\b([^>]*)>([\s\S]*?)<\/script>/gi)]`. -/
def extractScripts (html : String) : List ScriptMatch :=
  scanAll tryScript html.data.length html.data

/-- The array `[...html.matchAll(/<img\b([^>]*?)>/gi)]` (attribute captures). -/
def extractImgs (html : String) : List (List Char) :=
  scanAll tryImg html.data.length html.data

/-- UTF-8 byte length of a character sequence
(`Buffer.byteLength(s, 'utf8')`). -/
def utf8Len (l : List Char) : Nat := (l.map Char.utf8Size).sum

/-- The three script accumulators of the source's loop. -/
@[ext]
structure ScriptStats where
  totalScripts : Nat
  blockingScripts : Nat
  inlineBytes : Nat
deriving DecidableEq, Repr

/-- One iteration of the script loop. -/
def stepScript (st : ScriptStats) (m : ScriptMatch) : ScriptStats :=
  let hasDefer := testWord "defer".data m.attrs
  let hasAsync := testWord "async".data m.attrs
  let hasSrc := hasSrcAttr m.attrs
  let st := { st with totalScripts := st.totalScripts + 1 }
  let st := if !hasDefer && !hasAsync then
      { st with blockingScripts := st.blockingScripts + 1 } else st
  if !hasSrc then { st with inlineBytes := st.inlineBytes + utf8Len m.body } else st

/-- The script extraction pass. -/
def scriptStats (html : String) : ScriptStats :=
  (extractScripts html).foldl stepScript ⟨0, 0, 0⟩

/-- The three image accumulators of the source's loop. -/
@[ext]
structure ImgStats where
  totalImages : Nat
  noLazy : Nat
  suspectedLarge : Nat
deriving DecidableEq, Repr

/-- One iteration of the image loop. -/
def stepImg (st : ImgStats) (attrs : List Char) : ImgStats :=
  let hasLazy := hasLazyAttr attrs
  let st := { st with totalImages := st.totalImages + 1 }
  let st := if !hasLazy then { st with noLazy := st.noLazy + 1 } else st
  if isSuspectedLarge attrs then
    { st with suspectedLarge := st.suspectedLarge + 1 } else st

/-- The image extraction pass. -/
def imgStats (html : String) : ImgStats :=
  (extractImgs html).foldl stepImg ⟨0, 0, 0⟩

/-- Statement `if (totalScripts > 10) perfScore -= (totalScripts - 10) * 2`. -/
def stepTooManyScripts (ts : Nat) (s : Int) : Int :=
  if 10 < ts then s - ((ts : Int) - 10) * 2 else s

/-- Statement `if (blockingScripts > 5) perfScore -= (blockingScripts - 5) * 4`. -/
def stepTooManyBlocking (bs : Nat) (s : Int) : Int :=
  if 5 < bs then s - ((bs : Int) - 5) * 4 else s

/-- Statement `if (inlineBytes > 50_000) perfScore -= 15`. -/
def stepHeavyInline50 (ib : Nat) (s : Int) : Int :=
  if 50000 < ib then s - 15 else s

/-- Statement `if (inlineBytes > 150_000) perfScore -= 20`. -/
def stepHeavyInline150 (ib : Nat) (s : Int) : Int :=
  if 150000 < ib then s - 20 else s

/-- Statement `if (noLazy > 0 && totalImages > 0) { if (noLazy / totalImages > 0.5)
perfScore -= 10 }`; the ratio test is the exact integer comparison
`totalImages < 2 * noLazy` (double division by `totalImages` and the
comparison with 0.5 are exact at these magnitudes). -/
def stepMissingLazy (ti nl : Nat) (s : Int) : Int :=
  if 0 < nl ∧ 0 < ti then (if ti < 2 * nl then s - 10 else s) else s

/-- Statement `if (suspectedLarge > 0) perfScore -= suspectedLarge * 5`. -/
def stepBigImages (sl : Nat) (s : Int) : Int :=
  if 0 < sl then s - (sl : Int) * 5 else s

/-- Statement `if (perfScore < 0) perfScore = 0`. -/
def clampLow (s : Int) : Int := if s < 0 then 0 else s

/-- The scorer: start from 100 and apply the source's conditional
subtractions in statement order, clamping at 0 at the end. -/
def perfScore (ts bs ib ti nl sl : Nat) : Int :=
  clampLow (stepBigImages sl (stepMissingLazy ti nl (stepHeavyInline150 ib
    (stepHeavyInline50 ib (stepTooManyBlocking bs (stepTooManyScripts ts 100))))))

/-- The value `Math.round(inlineBytes / 1024)`: exact in doubles at these magnitudes,
and `Math.round` rounds half up, so this is `⌊(n + 512) / 1024⌋`. -/
def roundKB (n : Nat) : Nat := (n + 512) / 1024

/-- The notes array, built by the source's sequence of conditional pushes. -/
def mkNotes (ts bs ib ti nl sl : Nat) : List String :=
  let notes : List String := []
  let notes := notes ++ [s!"{ts} <script> tags detected."]
  let notes := notes ++
    (if 0 < bs then
        [s!"{bs} script(s) without async/defer (possible render-blockers)."]
      else ["Most scripts appear async/defer ✅"])
  let notes := notes ++
    (if 0 < ib then
        let k := roundKB ib
        [s!"Inline JS total ~{k}KB."]
      else [])
  let notes := notes ++
    (if 0 < ti then [s!"{nl}/{ti} images missing loading=\"lazy\"."]
      else ["No <img> tags detected."])
  let notes := notes ++
    (if 0 < sl then
        [s!"{sl} image(s) look very large ( >1000px dimension hints )."]
      else [])
  notes

/-- The result object returned by `speed_heuristics_checker`. -/
structure AnalysisResult where
  url : String
  totalScripts : Nat
  blockingScripts : Nat
  inlineScriptKB : Nat
  totalImages : Nat
  imagesMissingLazyLoad : Nat
  suspectedLargeImages : Nat
  performanceSmellScore : Int
  notes : List String
deriving DecidableEq, Repr

/-- Extraction + scoring + reporting: everything the tool does after the
fetch, as a pure function of the URL and the page HTML. -/
def analyze (url html : String) : AnalysisResult :=
  let ss := scriptStats html
  let im := imgStats html
  { url := url
    totalScripts := ss.totalScripts
    blockingScripts := ss.blockingScripts
    inlineScriptKB := roundKB ss.inlineBytes
    totalImages := im.totalImages
    imagesMissingLazyLoad := im.noLazy
    suspectedLargeImages := im.suspectedLarge
    performanceSmellScore :=
      perfScore ss.totalScripts ss.blockingScripts ss.inlineBytes
        im.totalImages im.noLazy im.suspectedLarge
    notes := mkNotes ss.totalScripts ss.blockingScripts ss.inlineBytes
        im.totalImages im.noLazy im.suspectedLarge }

/-- A fetch outcome, as the source observes it: an HTTP status code and the
body text. -/
structure FetchResponse where
  status : Nat
  body : String
deriving DecidableEq, Repr

/-- Modelled from the spec: the WHATWG fetch `Response.ok` flag (the fetch
API is platform code, not part of this repository) — true exactly for 2xx
statuses, "the core treats any non-2xx status as a failure". -/
def responseOk (r : FetchResponse) : Bool := 200 ≤ r.status && r.status ≤ 299

/-- The error message text of the thrown `Error`. -/
def fetchFailMsg (url : String) (status : Nat) : String :=
  s!"Failed to fetch {url}: {status}"

/-- The whole tool call on a completed fetch: `if (!res.ok) throw new Error`
then analyse the body.  Thrown errors are embedded as `Except.error`. -/
def speed_heuristics_checker (url : String) (res : FetchResponse) :
    Except String AnalysisResult :=
  if responseOk res then Except.ok (analyze url res.body)
  else Except.error (fetchFailMsg url res.status)

/-!  ## Specification-side definitions

The following definitions transcribe the wording of the specification (the
penalty table of §4.3 and the attribute-matching prose of §4.1/§4.2); the
theorems below compare them with the embedded code. -/

/-- Spec §4.3: penalty `(totalScripts - 10) * 2` when `totalScripts > 10`. -/
def penaltyScripts (ts : Nat) : Nat := if 10 < ts then (ts - 10) * 2 else 0

/-- Spec §4.3: penalty `(blockingScripts - 5) * 4` when `blockingScripts > 5`. -/
def penaltyBlocking (bs : Nat) : Nat := if 5 < bs then (bs - 5) * 4 else 0

/-- Spec §4.3: flat 15 over 50,000 inline bytes, an additional flat 20 over
150,000 (the two stack). -/
def penaltyInline (ib : Nat) : Nat :=
  (if 50000 < ib then 15 else 0) + (if 150000 < ib then 20 else 0)

/-- Spec §4.3: flat 10 when `totalImages > 0` and
`noLazy / totalImages > 0.5` (exact rational comparison). -/
def penaltyLazy (ti nl : Nat) : Nat := if 0 < ti ∧ ti < 2 * nl then 10 else 0

/-- Spec §4.3: penalty `suspectedLarge * 5` when `suspectedLarge > 0`. -/
def penaltyLarge (sl : Nat) : Nat := if 0 < sl then sl * 5 else 0

/-- Spec §4.3: 100 minus the sum of exactly the listed penalties, clamped
below at 0. -/
def specScore (ts bs ib ti nl sl : Nat) : Int :=
  let total : Int :=
    penaltyScripts ts + penaltyBlocking bs + penaltyInline ib +
      penaltyLazy ti nl + penaltyLarge sl
  if 100 - total < 0 then 0 else 100 - total

/-- The classification actually applied to every script in the loop:
no `defer` token and no `async` token in the attribute text. -/
def isBlocking (attrs : List Char) : Bool :=
  !testWord "defer".data attrs && !testWord "async".data attrs

/-- Spec §4.1: the attribute text contains the given token under
word-boundary, case-insensitive matching — some case-insensitive occurrence
of the token is preceded and followed by no word character (the boundary
reading for a token made of word characters, such as `defer` and `async`). -/
def HasTokenCI (tok s : List Char) : Prop :=
  ∃ pre mid post, s = pre ++ mid ++ post ∧ ciEqList mid tok = true ∧
    (∀ c, pre.getLast? = some c → isWordChar c = false) ∧
    (∀ c, post.head? = some c → isWordChar c = false)

/-- Spec §4.1: the attribute text contains a `src` attribute with a
non-empty quoted value — a case-insensitive `src` preceded by no word
character, then optional whitespace, `=`, optional whitespace, a quote, a
non-empty run of quote-free characters, and a closing quote. -/
def HasSrcValue (s : List Char) : Prop :=
  ∃ pre m ws1 ws2 q v q2 post,
    s = pre ++ m ++ ws1 ++ '=' :: (ws2 ++ q :: (v ++ q2 :: post)) ∧
    ciEqList m "src".data = true ∧
    (∀ c, pre.getLast? = some c → isWordChar c = false) ∧
    (∀ c ∈ ws1, isJsSpace c = true) ∧ (∀ c ∈ ws2, isJsSpace c = true) ∧
    isQuote q = true ∧ isQuote q2 = true ∧ v ≠ [] ∧ (∀ c ∈ v, isQuote c = false)

/-- Spec §4.2: the attribute text contains an explicit dimension attribute
(`width` or `height`, passed as `tok`) whose quoted value is a non-empty
digit string parsing to `n` — a case-insensitive `tok` preceded by no word
character, optional whitespace, `=`, optional whitespace, a quote, the
digits, and a closing quote. -/
def HasNumDecl (tok s : List Char) (n : Nat) : Prop :=
  ∃ pre m ws1 ws2 q ds q2 post,
    s = pre ++ m ++ ws1 ++ '=' :: (ws2 ++ q :: (ds ++ q2 :: post)) ∧
    ciEqList m tok = true ∧
    (∀ c, pre.getLast? = some c → isWordChar c = false) ∧
    (∀ c ∈ ws1, isJsSpace c = true) ∧ (∀ c ∈ ws2, isJsSpace c = true) ∧
    isQuote q = true ∧ isQuote q2 = true ∧ ds ≠ [] ∧
    (∀ c ∈ ds, c.isDigit = true) ∧ digitsVal ds = n

/-- The spec's inline-weight example page: a single inline script whose body
is exactly 60,000 UTF-8 bytes. -/
def html60k : String :=
  "<script>" ++ String.mk (List.replicate 60000 'a') ++ "</script>"

/-!  ## Unfolding the accumulation loops -/

theorem stepScript_totalScripts (st : ScriptStats) (m : ScriptMatch) :
    (stepScript st m).totalScripts = st.totalScripts + 1 := by
  simp only [stepScript]
  split <;> split <;> rfl

theorem stepScript_blockingScripts (st : ScriptStats) (m : ScriptMatch) :
    (stepScript st m).blockingScripts =
      st.blockingScripts + (if isBlocking m.attrs then 1 else 0) := by
  simp only [stepScript, isBlocking]
  split <;> split <;> simp_all

theorem stepScript_inlineBytes (st : ScriptStats) (m : ScriptMatch) :
    (stepScript st m).inlineBytes =
      st.inlineBytes + (if hasSrcAttr m.attrs then 0 else utf8Len m.body) := by
  simp only [stepScript]
  split <;> split <;> simp_all

theorem foldl_stepScript_total (l : List ScriptMatch) (st : ScriptStats) :
    (l.foldl stepScript st).totalScripts = st.totalScripts + l.length := by
  induction l generalizing st with
  | nil => simp
  | cons m l ih =>
    rw [List.foldl_cons, ih, stepScript_totalScripts, List.length_cons]
    omega

theorem foldl_stepScript_blocking (l : List ScriptMatch) (st : ScriptStats) :
    (l.foldl stepScript st).blockingScripts =
      st.blockingScripts + l.countP (fun m => isBlocking m.attrs) := by
  induction l generalizing st with
  | nil => simp
  | cons m l ih =>
    rw [List.foldl_cons, ih, stepScript_blockingScripts, List.countP_cons]
    by_cases hb : isBlocking m.attrs <;> simp [hb] <;> omega

theorem foldl_stepScript_inline (l : List ScriptMatch) (st : ScriptStats) :
    (l.foldl stepScript st).inlineBytes =
      st.inlineBytes +
        (((l.filter (fun m => !hasSrcAttr m.attrs)).map
            (fun m => utf8Len m.body)).sum) := by
  induction l generalizing st with
  | nil => simp
  | cons m l ih =>
    rw [List.foldl_cons, ih, stepScript_inlineBytes, List.filter_cons]
    by_cases hs : hasSrcAttr m.attrs <;> simp [hs] <;> omega

theorem scriptStats_eq (html : String) :
    scriptStats html =
      ⟨(extractScripts html).length,
       (extractScripts html).countP (fun m => isBlocking m.attrs),
       (((extractScripts html).filter (fun m => !hasSrcAttr m.attrs)).map
          (fun m => utf8Len m.body)).sum⟩ := by
  refine ScriptStats.ext ?_ ?_ ?_ <;>
    simp [scriptStats, foldl_stepScript_total, foldl_stepScript_blocking,
      foldl_stepScript_inline]

theorem stepImg_totalImages (st : ImgStats) (a : List Char) :
    (stepImg st a).totalImages = st.totalImages + 1 := by
  simp only [stepImg]
  split <;> split <;> rfl

theorem stepImg_noLazy (st : ImgStats) (a : List Char) :
    (stepImg st a).noLazy = st.noLazy + (if hasLazyAttr a then 0 else 1) := by
  simp only [stepImg]
  split <;> split <;> simp_all

theorem stepImg_suspectedLarge (st : ImgStats) (a : List Char) :
    (stepImg st a).suspectedLarge =
      st.suspectedLarge + (if isSuspectedLarge a then 1 else 0) := by
  simp only [stepImg]
  split <;> split <;> simp_all

theorem foldl_stepImg_total (l : List (List Char)) (st : ImgStats) :
    (l.foldl stepImg st).totalImages = st.totalImages + l.length := by
  induction l generalizing st with
  | nil => simp
  | cons a l ih =>
    rw [List.foldl_cons, ih, stepImg_totalImages, List.length_cons]
    omega

theorem foldl_stepImg_noLazy (l : List (List Char)) (st : ImgStats) :
    (l.foldl stepImg st).noLazy =
      st.noLazy + l.countP (fun a => !hasLazyAttr a) := by
  induction l generalizing st with
  | nil => simp
  | cons a l ih =>
    rw [List.foldl_cons, ih, stepImg_noLazy, List.countP_cons]
    by_cases hl : hasLazyAttr a <;> simp [hl] <;> omega

theorem foldl_stepImg_large (l : List (List Char)) (st : ImgStats) :
    (l.foldl stepImg st).suspectedLarge =
      st.suspectedLarge + l.countP (fun a => isSuspectedLarge a) := by
  induction l generalizing st with
  | nil => simp
  | cons a l ih =>
    rw [List.foldl_cons, ih, stepImg_suspectedLarge, List.countP_cons]
    by_cases hl : isSuspectedLarge a <;> simp [hl] <;> omega

theorem imgStats_eq (html : String) :
    imgStats html =
      ⟨(extractImgs html).length,
       (extractImgs html).countP (fun a => !hasLazyAttr a),
       (extractImgs html).countP (fun a => isSuspectedLarge a)⟩ := by
  refine ImgStats.ext ?_ ?_ ?_ <;>
    simp [imgStats, foldl_stepImg_total, foldl_stepImg_noLazy, foldl_stepImg_large]

/-!  ## The scorer against the spec's penalty table -/

theorem stepTooManyScripts_eq (ts : Nat) (s : Int) :
    stepTooManyScripts ts s = s - penaltyScripts ts := by
  simp only [stepTooManyScripts, penaltyScripts]
  split_ifs <;> omega

theorem stepTooManyBlocking_eq (bs : Nat) (s : Int) :
    stepTooManyBlocking bs s = s - penaltyBlocking bs := by
  simp only [stepTooManyBlocking, penaltyBlocking]
  split_ifs <;> omega

theorem stepHeavyInline_eq (ib : Nat) (s : Int) :
    stepHeavyInline150 ib (stepHeavyInline50 ib s) = s - penaltyInline ib := by
  simp only [stepHeavyInline50, stepHeavyInline150, penaltyInline]
  split_ifs <;> omega

theorem stepMissingLazy_eq (ti nl : Nat) (s : Int) :
    stepMissingLazy ti nl s = s - penaltyLazy ti nl := by
  simp only [stepMissingLazy, penaltyLazy]
  split_ifs <;> omega

theorem stepBigImages_eq (sl : Nat) (s : Int) :
    stepBigImages sl s = s - penaltyLarge sl := by
  simp only [stepBigImages, penaltyLarge]
  split_ifs <;> push_cast <;> omega

theorem perfScore_eq_specScore (ts bs ib ti nl sl : Nat) :
    perfScore ts bs ib ti nl sl = specScore ts bs ib ti nl sl := by
  simp only [perfScore, stepTooManyScripts_eq, stepTooManyBlocking_eq,
    stepHeavyInline_eq, stepMissingLazy_eq, stepBigImages_eq, clampLow, specScore]
  split_ifs <;> omega

theorem perfScore_nonneg (ts bs ib ti nl sl : Nat) :
    0 ≤ perfScore ts bs ib ti nl sl := by
  rw [perfScore_eq_specScore]
  simp only [specScore]
  split_ifs <;> omega

theorem perfScore_le_100 (ts bs ib ti nl sl : Nat) :
    perfScore ts bs ib ti nl sl ≤ 100 := by
  rw [perfScore_eq_specScore]
  simp only [specScore]
  split_ifs <;> omega

/-!  ## Notes -/

theorem mkNotes_eq (ts bs ib ti nl sl : Nat) :
    mkNotes ts bs ib ti nl sl =
      [s!"{ts} <script> tags detected."] ++
      (if 0 < bs then
          [s!"{bs} script(s) without async/defer (possible render-blockers)."]
        else ["Most scripts appear async/defer ✅"]) ++
      (if 0 < ib then [s!"Inline JS total ~{roundKB ib}KB."] else []) ++
      (if 0 < ti then [s!"{nl}/{ti} images missing loading=\"lazy\"."]
        else ["No <img> tags detected."]) ++
      (if 0 < sl then
          [s!"{sl} image(s) look very large ( >1000px dimension hints )."]
        else []) := by
  simp [mkNotes, List.append_assoc]

theorem mkNotes_length (ts bs ib ti nl sl : Nat) :
    (mkNotes ts bs ib ti nl sl).length =
      3 + (if 0 < ib then 1 else 0) + (if 0 < sl then 1 else 0) := by
  rw [mkNotes_eq]
  split_ifs <;> simp

theorem analyze_notes (url html : String) :
    (analyze url html).notes =
      mkNotes (scriptStats html).totalScripts (scriptStats html).blockingScripts
        (scriptStats html).inlineBytes (imgStats html).totalImages
        (imgStats html).noLazy (imgStats html).suspectedLarge := rfl

theorem analyze_score (url html : String) :
    (analyze url html).performanceSmellScore =
      perfScore (scriptStats html).totalScripts (scriptStats html).blockingScripts
        (scriptStats html).inlineBytes (imgStats html).totalImages
        (imgStats html).noLazy (imgStats html).suspectedLarge := rfl

theorem analyze_kb (url html : String) :
    (analyze url html).inlineScriptKB = roundKB (scriptStats html).inlineBytes := rfl

/-!  ## Characterisation of the attribute scanners -/

theorem charIEq_refl (a : Char) : charIEq a a = true := by
  simp [charIEq]

theorem charIEq_symm (a b : Char) : charIEq a b = charIEq b a := by
  simp only [charIEq]
  by_cases h : lowerAscii a = lowerAscii b
  · rw [h]
  · have h1 : (lowerAscii a == lowerAscii b) = false := by simp [h]
    have h2 : (lowerAscii b == lowerAscii a) = false := by simp [Ne.symm h]
    rw [h1, h2]

theorem ciEqList_refl : ∀ l : List Char, ciEqList l l = true
  | [] => rfl
  | a :: as => by simp [ciEqList, charIEq_refl, ciEqList_refl as]

theorem matchLitCI_of_ciEq :
    ∀ (tok m rest : List Char), ciEqList m tok = true →
      matchLitCI tok (m ++ rest) = some rest := by
  intro tok
  induction tok with
  | nil =>
    intro m rest h
    cases m with
    | nil => rfl
    | cons a as => simp [ciEqList] at h
  | cons p ps ih =>
    intro m rest h
    cases m with
    | nil => simp [ciEqList] at h
    | cons a as =>
      simp only [ciEqList, Bool.and_eq_true] at h
      have hpa : charIEq p a = true := by rw [charIEq_symm]; exact h.1
      simp only [List.cons_append, matchLitCI, hpa, if_true]
      exact ih as rest h.2

theorem matchLitCI_self (tok rest : List Char) :
    matchLitCI tok (tok ++ rest) = some rest :=
  matchLitCI_of_ciEq tok tok rest (ciEqList_refl tok)

theorem matchLitCI_eq_some :
    ∀ (tok l rest : List Char),
      matchLitCI tok l = some rest ↔
        ∃ mid, l = mid ++ rest ∧ ciEqList mid tok = true := by
  intro tok
  induction tok with
  | nil =>
    intro l rest
    simp only [matchLitCI, Option.some.injEq]
    constructor
    · rintro rfl
      exact ⟨[], rfl, rfl⟩
    · rintro ⟨mid, hsplit, hci⟩
      cases mid with
      | nil => simpa using hsplit
      | cons a as => simp [ciEqList] at hci
  | cons p ps ih =>
    intro l rest
    cases l with
    | nil =>
      constructor
      · intro h; exact absurd h (by simp [matchLitCI])
      · rintro ⟨mid, hsplit, hci⟩
        cases mid with
        | nil => simp [ciEqList] at hci
        | cons a as => simp at hsplit
    | cons c cs =>
      simp only [matchLitCI]
      by_cases hc : charIEq p c = true
      · rw [if_pos hc, ih]
        constructor
        · rintro ⟨mid, rfl, hci⟩
          refine ⟨c :: mid, rfl, ?_⟩
          simp only [ciEqList, Bool.and_eq_true]
          exact ⟨by rw [charIEq_symm]; exact hc, hci⟩
        · rintro ⟨mid, hsplit, hci⟩
          cases mid with
          | nil => simp [ciEqList] at hci
          | cons a as =>
            injection hsplit with h1 h2
            subst h1
            simp only [ciEqList, Bool.and_eq_true] at hci
            exact ⟨as, h2, hci.2⟩
      · rw [if_neg hc]
        constructor
        · intro h; exact absurd h (by simp)
        · rintro ⟨mid, hsplit, hci⟩
          cases mid with
          | nil => simp [ciEqList] at hci
          | cons a as =>
            injection hsplit with h1 h2
            subst h1
            simp only [ciEqList, Bool.and_eq_true] at hci
            exact absurd (by rw [charIEq_symm]; exact hci.1) hc

theorem mem_takeWhile_sat {α : Type} (p : α → Bool) :
    ∀ (l : List α), ∀ c ∈ l.takeWhile p, p c = true := by
  intro l
  induction l with
  | nil => intro c hc; simp at hc
  | cons a t ih =>
    intro c hc
    rw [List.takeWhile_cons] at hc
    by_cases ha : p a = true
    · rw [if_pos ha] at hc
      rcases List.mem_cons.mp hc with rfl | hmem
      · exact ha
      · exact ih c hmem
    · rw [if_neg ha] at hc
      simp at hc

theorem dropWhile_head_false {α : Type} (p : α → Bool) :
    ∀ (l : List α) (c : α) (t : List α), l.dropWhile p = c :: t → p c = false := by
  intro l
  induction l with
  | nil => intro c t h; simp at h
  | cons a l ih =>
    intro c t h
    rw [List.dropWhile_cons] at h
    by_cases ha : p a = true
    · rw [if_pos ha] at h
      exact ih c t h
    · rw [if_neg ha] at h
      injection h with h1 h2
      subst h1
      exact Bool.eq_false_iff.mpr ha

theorem takeWhile_append_sat {α : Type} (p : α → Bool) :
    ∀ (xs ys : List α), (∀ c ∈ xs, p c = true) →
      (∀ c, ys.head? = some c → p c = false) →
      (xs ++ ys).takeWhile p = xs ∧ (xs ++ ys).dropWhile p = ys := by
  intro xs
  induction xs with
  | nil =>
    intro ys h1 h2
    cases ys with
    | nil => simp
    | cons c t =>
      have hc := h2 c rfl
      simp [List.takeWhile_cons, List.dropWhile_cons, hc]
  | cons a xs ih =>
    intro ys h1 h2
    have ha : p a = true := h1 a (by simp)
    have hih := ih ys (fun c hc => h1 c (by simp [hc])) h2
    simp [List.takeWhile_cons, List.dropWhile_cons, ha, hih.1, hih.2]

theorem prevOf_eq_getLast :
    ∀ (pre : List Char) (prev : Option Char),
      prevOf prev pre = match pre.getLast? with
        | some c => some c
        | none => prev := by
  intro pre
  induction pre with
  | nil => intro prev; rfl
  | cons c pre ih =>
    intro prev
    show prevOf (some c) pre = _
    rw [ih]
    cases pre with
    | nil => simp
    | cons d t =>
      rw [List.getLast?_cons_cons]
      cases hl : (d :: t).getLast? with
      | some x => simp
      | none => simp at hl

theorem boundaryOk_iff (rest : List Char) :
    boundaryOk rest = true ↔ ∀ c, rest.head? = some c → isWordChar c = false := by
  cases rest with
  | nil => simp [boundaryOk]
  | cons c t => simp [boundaryOk]

theorem boundaryPrev_prevOf_iff (pre : List Char) :
    boundaryPrev (prevOf none pre) = true ↔
      ∀ c, pre.getLast? = some c → isWordChar c = false := by
  rw [prevOf_eq_getLast]
  cases hl : pre.getLast? with
  | none => simp [boundaryPrev]
  | some c => simp [boundaryPrev]

theorem scanParts_cons_iff {α : Type} (g : List Char → Option α) (c : Char)
    (cs : List Char) (prev : Option Char)
    (hdead : boundaryPrev prev = false ∨ (g (c :: cs)).isSome = false) :
    (∃ pre rest, c :: cs = pre ++ rest ∧ boundaryPrev (prevOf prev pre) = true ∧
        (g rest).isSome = true) ↔
      (∃ pre rest, cs = pre ++ rest ∧ boundaryPrev (prevOf (some c) pre) = true ∧
        (g rest).isSome = true) := by
  constructor
  · rintro ⟨pre, rest, hsplit, hb, hsome⟩
    cases pre with
    | nil =>
      simp only [List.nil_append] at hsplit
      subst hsplit
      rcases hdead with hd | hd
      · rw [show prevOf prev ([] : List Char) = prev from rfl, hd] at hb
        cases hb
      · rw [hd] at hsome
        cases hsome
    | cons c' pre =>
      rw [List.cons_append] at hsplit
      injection hsplit with h1 h2
      subst h1
      exact ⟨pre, rest, h2, hb, hsome⟩
  · rintro ⟨pre, rest, hsplit, hb, hsome⟩
    exact ⟨c :: pre, rest, by rw [List.cons_append, hsplit], hb, hsome⟩

theorem scanFirst_isSome_iff_parts {α : Type} (g : List Char → Option α)
    (hg : g [] = none) :
    ∀ (s : List Char) (prev : Option Char),
      (scanFirst g prev s).isSome = true ↔
        ∃ pre rest, s = pre ++ rest ∧ boundaryPrev (prevOf prev pre) = true ∧
          (g rest).isSome = true := by
  intro s
  induction s with
  | nil =>
    intro prev
    constructor
    · intro h; simp [scanFirst] at h
    · rintro ⟨pre, rest, hsplit, hb, hsome⟩
      obtain ⟨rfl, rfl⟩ := List.append_eq_nil.mp hsplit.symm
      rw [hg] at hsome
      cases hsome
  | cons c cs ih =>
    intro prev
    rw [show scanFirst g prev (c :: cs) =
        (match (if boundaryPrev prev then g (c :: cs) else none) with
          | some v => some v
          | none => scanFirst g (some c) cs) from rfl]
    cases hb : boundaryPrev prev with
    | false =>
      rw [if_neg (by simp)]
      rw [ih (some c)]
      exact (scanParts_cons_iff g c cs prev (Or.inl hb)).symm
    | true =>
      rw [if_pos rfl]
      cases hgv : g (c :: cs) with
      | some v =>
        constructor
        · intro _
          exact ⟨[], c :: cs, rfl, hb, by rw [hgv]; rfl⟩
        · intro _
          rfl
      | none =>
        rw [ih (some c)]
        exact (scanParts_cons_iff g c cs prev (Or.inr (by rw [hgv]; rfl))).symm

theorem scanFirst_eq_some_parts {α : Type} (g : List Char → Option α) :
    ∀ (s : List Char) (prev : Option Char) (v : α),
      scanFirst g prev s = some v →
        ∃ pre rest, s = pre ++ rest ∧ boundaryPrev (prevOf prev pre) = true ∧
          g rest = some v := by
  intro s
  induction s with
  | nil => intro prev v h; simp [scanFirst] at h
  | cons c cs ih =>
    intro prev v h
    rw [show scanFirst g prev (c :: cs) =
        (match (if boundaryPrev prev then g (c :: cs) else none) with
          | some v => some v
          | none => scanFirst g (some c) cs) from rfl] at h
    cases hb : boundaryPrev prev with
    | false =>
      rw [hb, if_neg (by simp)] at h
      obtain ⟨pre, rest, hsplit, hbnd, hsome⟩ := ih (some c) v h
      exact ⟨c :: pre, rest, by rw [List.cons_append, hsplit], hbnd, hsome⟩
    | true =>
      rw [hb, if_pos rfl] at h
      cases hgv : g (c :: cs) with
      | some w =>
        rw [hgv] at h
        injection h with hw
        exact ⟨[], c :: cs, rfl, hb, by rw [hgv, hw]⟩
      | none =>
        rw [hgv] at h
        obtain ⟨pre, rest, hsplit, hbnd, hsome⟩ := ih (some c) v h
        exact ⟨c :: pre, rest, by rw [List.cons_append, hsplit], hbnd, hsome⟩

theorem quote_not_space (c : Char) (h : isQuote c = true) : isJsSpace c = false := by
  simp only [isQuote, Bool.or_eq_true, beq_iff_eq] at h
  simp only [isJsSpace, Bool.or_eq_false_iff, beq_eq_false_iff_ne, Ne,
    Bool.and_eq_false_iff, decide_eq_false_iff_not]
  omega

theorem quote_not_digit (c : Char) (h : isQuote c = true) : c.isDigit = false := by
  simp only [isQuote, Bool.or_eq_true, beq_iff_eq] at h
  simp only [Char.isDigit, Bool.and_eq_false_iff, decide_eq_false_iff_not]
  left
  intro hge
  have h2 : (48 : UInt32).toNat ≤ c.val.toNat := hge
  have h48 : (48 : UInt32).toNat = 48 := rfl
  have hc : c.val.toNat = c.toNat := rfl
  omega

theorem trySrcDecl_eq_some (l v : List Char) (h : trySrcDecl l = some v) :
    ∃ m ws1 ws2 q q2 post,
      l = m ++ ws1 ++ '=' :: (ws2 ++ q :: (v ++ q2 :: post)) ∧
      ciEqList m "src".data = true ∧ (∀ c ∈ ws1, isJsSpace c = true) ∧
      (∀ c ∈ ws2, isJsSpace c = true) ∧ isQuote q = true ∧ isQuote q2 = true ∧
      v ≠ [] ∧ (∀ c ∈ v, isQuote c = false) := by
  unfold trySrcDecl at h
  split at h
  next hm => exact absurd h (by simp)
  next rest hm =>
    split at h
    next hd1 => exact absurd h (by simp)
    next e rest2 hd1 =>
      split at h
      next he =>
        split at h
        next hd2 => exact absurd h (by simp)
        next q rest4 hd2 =>
          split at h
          next hq =>
            split at h
            next q2 post hd3 =>
              split at h
              next hv => exact absurd h (by simp)
              next hv =>
                injection h with hv2
                obtain ⟨m, hlm, hci⟩ := (matchLitCI_eq_some "src".data l rest).mp hm
                have h1 : rest = rest.takeWhile isJsSpace ++ (e :: rest2) := by
                  conv_lhs => rw [← List.takeWhile_append_dropWhile isJsSpace rest]
                  rw [hd1]
                have h2 : rest2 = rest2.takeWhile isJsSpace ++ (q :: rest4) := by
                  conv_lhs => rw [← List.takeWhile_append_dropWhile isJsSpace rest2]
                  rw [hd2]
                have h3 : rest4 =
                    rest4.takeWhile (fun c => !isQuote c) ++ (q2 :: post) := by
                  conv_lhs =>
                    rw [← List.takeWhile_append_dropWhile (fun c => !isQuote c) rest4]
                  rw [hd3]
                subst he
                refine ⟨m, rest.takeWhile isJsSpace, rest2.takeWhile isJsSpace, q,
                  q2, post, ?_, hci, mem_takeWhile_sat _ _, mem_takeWhile_sat _ _,
                  hq, ?_, ?_, ?_⟩
                · rw [hlm]
                  conv_lhs => rw [h1]
                  conv_lhs => rw [h2]
                  conv_lhs => rw [h3]
                  rw [hv2, List.append_assoc]
                · have hb := dropWhile_head_false (fun c => !isQuote c) rest4 q2 post hd3
                  simpa using hb
                · intro hnil
                  rw [hnil] at hv2
                  rw [hv2] at hv
                  exact hv rfl
                · intro c hc
                  have := mem_takeWhile_sat (fun c => !isQuote c) rest4 c
                    (by rw [hv2]; exact hc)
                  simpa using this
            next hd3 => exact absurd h (by simp)
          next hq => exact absurd h (by simp)
      next he => exact absurd h (by simp)

theorem trySrcDecl_isSome_of (m ws1 ws2 v post : List Char) (q q2 : Char)
    (hci : ciEqList m "src".data = true) (hws1 : ∀ c ∈ ws1, isJsSpace c = true)
    (hws2 : ∀ c ∈ ws2, isJsSpace c = true) (hq : isQuote q = true)
    (hq2 : isQuote q2 = true) (hv : v ≠ []) (hvq : ∀ c ∈ v, isQuote c = false) :
    (trySrcDecl (m ++ ws1 ++ '=' :: (ws2 ++ q :: (v ++ q2 :: post)))).isSome = true := by
  have hm : matchLitCI "src".data
      (m ++ (ws1 ++ '=' :: (ws2 ++ q :: (v ++ q2 :: post)))) =
      some (ws1 ++ '=' :: (ws2 ++ q :: (v ++ q2 :: post))) :=
    matchLitCI_of_ciEq _ _ _ hci
  have h1 := takeWhile_append_sat isJsSpace ws1
    ('=' :: (ws2 ++ q :: (v ++ q2 :: post))) hws1
    (by intro c hc; injection hc with hc; subst hc; decide)
  have h2 := takeWhile_append_sat isJsSpace ws2 (q :: (v ++ q2 :: post)) hws2
    (by intro c hc; injection hc with hc; subst hc; exact quote_not_space _ hq)
  have h3 := takeWhile_append_sat (fun c => !isQuote c) v (q2 :: post)
    (by intro c hc; simp [hvq c hc])
    (by intro c hc; injection hc with hc; subst hc; simp [hq2])
  have hvf : v.isEmpty = false := by
    cases v with
    | nil => exact absurd rfl hv
    | cons a as => rfl
  unfold trySrcDecl
  rw [List.append_assoc]
  rw [hm]
  simp [h1.2, h2.2, h3.1, h3.2, hvf, hq]

theorem hasSrcAttr_iff (attrs : List Char) :
    hasSrcAttr attrs = true ↔ HasSrcValue attrs := by
  have hg : trySrcDecl [] = none := rfl
  unfold hasSrcAttr
  rw [scanFirst_isSome_iff_parts trySrcDecl hg attrs none]
  constructor
  · rintro ⟨pre, rest, rfl, hb, hsome⟩
    obtain ⟨v, hv⟩ := Option.isSome_iff_exists.mp hsome
    obtain ⟨m, ws1, ws2, q, q2, post, hsplit, hci, hx1, hx2, hx3, hx4, hx5, hx6⟩ :=
      trySrcDecl_eq_some rest v hv
    exact ⟨pre, m, ws1, ws2, q, v, q2, post,
      by rw [hsplit]; simp [List.append_assoc], hci,
      (boundaryPrev_prevOf_iff pre).mp hb, hx1, hx2, hx3, hx4, hx5, hx6⟩
  · rintro ⟨pre, m, ws1, ws2, q, v, q2, post, rfl, hci, hpre, hws1, hws2, hq,
      hq2, hv, hvq⟩
    exact ⟨pre, m ++ ws1 ++ '=' :: (ws2 ++ q :: (v ++ q2 :: post)),
      by simp [List.append_assoc],
      (boundaryPrev_prevOf_iff pre).mpr hpre,
      trySrcDecl_isSome_of m ws1 ws2 v post q q2 hci hws1 hws2 hq hq2 hv hvq⟩

theorem tryNumDecl_eq_some (tok l : List Char) (n : Nat)
    (h : tryNumDecl tok l = some n) :
    ∃ m ws1 ws2 q ds q2 post,
      l = m ++ ws1 ++ '=' :: (ws2 ++ q :: (ds ++ q2 :: post)) ∧
      ciEqList m tok = true ∧ (∀ c ∈ ws1, isJsSpace c = true) ∧
      (∀ c ∈ ws2, isJsSpace c = true) ∧ isQuote q = true ∧ isQuote q2 = true ∧
      ds ≠ [] ∧ (∀ c ∈ ds, c.isDigit = true) ∧ digitsVal ds = n := by
  unfold tryNumDecl at h
  split at h
  next hm => exact absurd h (by simp)
  next rest hm =>
    split at h
    next hd1 => exact absurd h (by simp)
    next e rest2 hd1 =>
      split at h
      next he =>
        split at h
        next hd2 => exact absurd h (by simp)
        next q rest4 hd2 =>
          split at h
          next hq =>
            split at h
            next q2 post hd3 =>
              split at h
              next hds => exact absurd h (by simp)
              next hds =>
                split at h
                next hq2 =>
                  injection h with hn
                  obtain ⟨m, hlm, hci⟩ := (matchLitCI_eq_some tok l rest).mp hm
                  have h1 : rest = rest.takeWhile isJsSpace ++ (e :: rest2) := by
                    conv_lhs => rw [← List.takeWhile_append_dropWhile isJsSpace rest]
                    rw [hd1]
                  have h2 : rest2 = rest2.takeWhile isJsSpace ++ (q :: rest4) := by
                    conv_lhs => rw [← List.takeWhile_append_dropWhile isJsSpace rest2]
                    rw [hd2]
                  have h3 : rest4 = rest4.takeWhile Char.isDigit ++ (q2 :: post) := by
                    conv_lhs =>
                      rw [← List.takeWhile_append_dropWhile Char.isDigit rest4]
                    rw [hd3]
                  subst he
                  refine ⟨m, rest.takeWhile isJsSpace, rest2.takeWhile isJsSpace,
                    q, rest4.takeWhile Char.isDigit, q2, post, ?_, hci,
                    mem_takeWhile_sat _ _, mem_takeWhile_sat _ _, hq, hq2, ?_,
                    mem_takeWhile_sat _ _, hn⟩
                  · rw [hlm]
                    conv_lhs => rw [h1]
                    conv_lhs => rw [h2]
                    conv_lhs => rw [h3]
                    rw [List.append_assoc]
                  · intro hnil
                    rw [hnil] at hds
                    exact hds rfl
                next hq2 => exact absurd h (by simp)
            next hd3 => exact absurd h (by simp)
          next hq => exact absurd h (by simp)
      next he => exact absurd h (by simp)

theorem tryNumDecl_isSome_of (tok m ws1 ws2 ds post : List Char) (q q2 : Char)
    (hci : ciEqList m tok = true) (hws1 : ∀ c ∈ ws1, isJsSpace c = true)
    (hws2 : ∀ c ∈ ws2, isJsSpace c = true) (hq : isQuote q = true)
    (hq2 : isQuote q2 = true) (hds : ds ≠ [])
    (hdig : ∀ c ∈ ds, c.isDigit = true) :
    tryNumDecl tok (m ++ ws1 ++ '=' :: (ws2 ++ q :: (ds ++ q2 :: post))) =
      some (digitsVal ds) := by
  have hm : matchLitCI tok
      (m ++ (ws1 ++ '=' :: (ws2 ++ q :: (ds ++ q2 :: post)))) =
      some (ws1 ++ '=' :: (ws2 ++ q :: (ds ++ q2 :: post))) :=
    matchLitCI_of_ciEq _ _ _ hci
  have h1 := takeWhile_append_sat isJsSpace ws1
    ('=' :: (ws2 ++ q :: (ds ++ q2 :: post))) hws1
    (by intro c hc; injection hc with hc; subst hc; decide)
  have h2 := takeWhile_append_sat isJsSpace ws2 (q :: (ds ++ q2 :: post)) hws2
    (by intro c hc; injection hc with hc; subst hc; exact quote_not_space _ hq)
  have h3 := takeWhile_append_sat Char.isDigit ds (q2 :: post) hdig
    (by intro c hc; injection hc with hc; subst hc; exact quote_not_digit _ hq2)
  have hdsf : ds.isEmpty = false := by
    cases ds with
    | nil => exact absurd rfl hds
    | cons a as => rfl
  unfold tryNumDecl
  rw [List.append_assoc]
  rw [hm]
  simp [h1.2, h2.2, h3.1, h3.2, hdsf, hq, hq2]

theorem numValOf_eq_some (tok attrs : List Char) (n : Nat)
    (h : scanFirst (tryNumDecl tok) none attrs = some n) :
    HasNumDecl tok attrs n := by
  obtain ⟨pre, rest, rfl, hb, hsome⟩ := scanFirst_eq_some_parts (tryNumDecl tok) attrs none n h
  obtain ⟨m, ws1, ws2, q, ds, q2, post, hsplit, hci, hx1, hx2, hx3, hx4, hx5, hx6, hx7⟩ :=
    tryNumDecl_eq_some tok rest n hsome
  exact ⟨pre, m, ws1, ws2, q, ds, q2, post,
    by rw [hsplit]; simp [List.append_assoc], hci,
    (boundaryPrev_prevOf_iff pre).mp hb, hx1, hx2, hx3, hx4, hx5, hx6, hx7⟩

theorem hasNumDecl_iff_isSome (tok attrs : List Char)
    (hg : tryNumDecl tok [] = none) :
    (∃ n, HasNumDecl tok attrs n) ↔
      (scanFirst (tryNumDecl tok) none attrs).isSome = true := by
  rw [scanFirst_isSome_iff_parts (tryNumDecl tok) hg attrs none]
  constructor
  · rintro ⟨n, pre, m, ws1, ws2, q, ds, q2, post, rfl, hci, hpre, hws1, hws2,
      hq, hq2, hds, hdig, hn⟩
    exact ⟨pre, m ++ ws1 ++ '=' :: (ws2 ++ q :: (ds ++ q2 :: post)),
      by simp [List.append_assoc],
      (boundaryPrev_prevOf_iff pre).mpr hpre,
      by rw [tryNumDecl_isSome_of tok m ws1 ws2 ds post q q2 hci hws1 hws2 hq
        hq2 hds hdig]; rfl⟩
  · rintro ⟨pre, rest, rfl, hb, hsome⟩
    obtain ⟨n, hn⟩ := Option.isSome_iff_exists.mp hsome
    obtain ⟨m, ws1, ws2, q, ds, q2, post, hsplit, hci, hx1, hx2, hx3, hx4, hx5,
      hx6, hx7⟩ := tryNumDecl_eq_some tok rest n hn
    exact ⟨n, pre, m, ws1, ws2, q, ds, q2, post,
      by rw [hsplit]; simp [List.append_assoc], hci,
      (boundaryPrev_prevOf_iff pre).mp hb, hx1, hx2, hx3, hx4, hx5, hx6, hx7⟩

theorem boundMatch_isSome_iff (tok l : List Char) :
    (boundMatch tok l).isSome = true ↔
      ∃ mid rest, l = mid ++ rest ∧ ciEqList mid tok = true ∧
        (∀ c, rest.head? = some c → isWordChar c = false) := by
  unfold boundMatch
  split
  next rest hm =>
    by_cases hb : boundaryOk rest = true
    · rw [if_pos hb]
      constructor
      · intro _
        obtain ⟨mid, hsplit, hci⟩ := (matchLitCI_eq_some tok l rest).mp hm
        exact ⟨mid, rest, hsplit, hci, (boundaryOk_iff rest).mp hb⟩
      · intro _; rfl
    · rw [if_neg hb]
      constructor
      · intro h; simp at h
      · rintro ⟨mid, rest2, hsplit, hci, hbnd⟩
        rw [hsplit, matchLitCI_of_ciEq tok mid rest2 hci] at hm
        injection hm with he
        subst he
        exact absurd ((boundaryOk_iff rest2).mpr hbnd) hb
  next hm =>
    constructor
    · intro h; simp at h
    · rintro ⟨mid, rest, rfl, hci, -⟩
      rw [matchLitCI_of_ciEq tok mid rest hci] at hm
      cases hm

theorem testWord_iff_hasToken (tok s : List Char) (ht : tok ≠ []) :
    testWord tok s = true ↔ HasTokenCI tok s := by
  have hg : boundMatch tok [] = none := by
    cases tok with
    | nil => exact absurd rfl ht
    | cons p ps => rfl
  unfold testWord
  rw [scanFirst_isSome_iff_parts (boundMatch tok) hg s none]
  constructor
  · rintro ⟨pre, rest, rfl, hb, hsome⟩
    obtain ⟨mid, rest2, rfl, hci, hbnd⟩ := (boundMatch_isSome_iff tok rest).mp hsome
    exact ⟨pre, mid, rest2, by simp [List.append_assoc], hci,
      (boundaryPrev_prevOf_iff pre).mp hb, hbnd⟩
  · rintro ⟨pre, mid, post, rfl, hci, hpre, hpost⟩
    exact ⟨pre, mid ++ post, by simp [List.append_assoc],
      (boundaryPrev_prevOf_iff pre).mpr hpre,
      (boundMatch_isSome_iff tok (mid ++ post)).mpr ⟨mid, post, rfl, hci, hpost⟩⟩

theorem bigDim_iff (o : Option Nat) :
    bigDim o = true ↔ ∃ n, o = some n ∧ 1000 < n := by
  cases o <;> simp [bigDim]

/-!  ## The 60,000-byte inline-script page -/

theorem matchLitCI_head_false (p c : Char) (ps cs : List Char)
    (h : charIEq p c = false) : matchLitCI (p :: ps) (c :: cs) = none := by
  simp [matchLitCI, h]

theorem findClose_repl (n : Nat) (rest : List Char) :
    findClose "</script>".data
        (List.replicate n 'a' ++ ("</script>".data ++ rest)) =
      some (List.replicate n 'a', rest) := by
  induction n with
  | zero =>
    show findClose "</script>".data ([] ++ ("</script>".data ++ rest)) = _
    rw [List.nil_append]
    rw [show ("</script>".data ++ rest : List Char) =
        '<' :: ("/script>".data ++ rest) from rfl]
    simp only [findClose,
      show matchLitCI "</script>".data ('<' :: ("/script>".data ++ rest)) =
          some rest from matchLitCI_self "</script>".data rest]
    rfl
  | succ n ih =>
    rw [List.replicate_succ, List.cons_append]
    simp only [findClose,
      show matchLitCI "</script>".data
          ('a' :: (List.replicate n 'a' ++ ("</script>".data ++ rest))) = none
        from matchLitCI_head_false '<' 'a' "/script>".data _ (by decide),
      ih, List.replicate_succ]

theorem tryScript_repl (n : Nat) :
    tryScript ("<script>".data ++ (List.replicate n 'a' ++ "</script>".data)) =
      some (⟨[], List.replicate n 'a'⟩, []) := by
  have hfc := findClose_repl n ([] : List Char)
  rw [List.append_nil] at hfc
  unfold tryScript
  simp only [show matchLitCI "<script".data
      ("<script>".data ++ (List.replicate n 'a' ++ "</script>".data)) =
      some ('>' :: (List.replicate n 'a' ++ "</script>".data))
    from matchLitCI_self "<script".data
      ('>' :: (List.replicate n 'a' ++ "</script>".data))]
  rw [show boundaryOk ('>' :: (List.replicate n 'a' ++ "</script>".data)) = true
    from rfl]
  rw [if_pos rfl]
  simp only [show List.dropWhile (fun c => c != '>')
      ('>' :: (List.replicate n 'a' ++ "</script>".data)) =
      '>' :: (List.replicate n 'a' ++ "</script>".data) from rfl,
    show List.takeWhile (fun c => c != '>')
      ('>' :: (List.replicate n 'a' ++ "</script>".data)) = ([] : List Char)
      from rfl,
    hfc]

theorem scanAll_cons {α : Type} (try1 : List Char → Option (α × List Char))
    (fuel : Nat) (c : Char) (cs : List Char) :
    scanAll try1 (fuel + 1) (c :: cs) =
      (match try1 (c :: cs) with
        | some (m, rem) => m :: scanAll try1 fuel rem
        | none => scanAll try1 fuel cs) := rfl

theorem scanAll_nil_fuel {α : Type} (try1 : List Char → Option (α × List Char))
    (fuel : Nat) : scanAll try1 fuel [] = [] := by
  cases fuel <;> rfl

theorem html60k_data : html60k.data =
    "<script>".data ++ (List.replicate 60000 'a' ++ "</script>".data) := by
  show (("<script>" ++ String.mk (List.replicate 60000 'a')) ++ "</script>").data = _
  rw [String.data_append, String.data_append]
  rw [List.append_assoc]

theorem extractScripts_html60k :
    extractScripts html60k = [⟨[], List.replicate 60000 'a'⟩] := by
  have hlen : html60k.data.length = 60017 := by
    rw [html60k_data, List.length_append, List.length_append,
      List.length_replicate]
    rfl
  unfold extractScripts
  rw [hlen, html60k_data]
  rw [show ("<script>".data ++
        (List.replicate 60000 'a' ++ "</script>".data) : List Char) =
      '<' :: ("script>".data ++ (List.replicate 60000 'a' ++ "</script>".data))
    from rfl]
  rw [show (60017 : Nat) = 60016 + 1 from rfl]
  rw [scanAll_cons]
  rw [show tryScript ('<' :: ("script>".data ++
        (List.replicate 60000 'a' ++ "</script>".data))) =
      some (⟨[], List.replicate 60000 'a'⟩, []) from tryScript_repl 60000]
  show (⟨[], List.replicate 60000 'a'⟩ : ScriptMatch) ::
      scanAll tryScript 60016 [] = [⟨[], List.replicate 60000 'a'⟩]
  rw [scanAll_nil_fuel]

theorem scanAll_eq_nil {α : Type} (try1 : List Char → Option (α × List Char)) :
    ∀ (fuel : Nat) (l : List Char), (∀ t, t <:+ l → try1 t = none) →
      scanAll try1 fuel l = [] := by
  intro fuel
  induction fuel with
  | zero => intro l h; rfl
  | succ fuel ih =>
    intro l h
    cases l with
    | nil => rfl
    | cons c cs =>
      simp only [scanAll, h (c :: cs) (List.suffix_refl _)]
      exact ih cs (fun t ht => h t (ht.trans (List.suffix_cons c cs)))

theorem tryImg_none_head (c : Char) (l : List Char) (h : charIEq '<' c = false) :
    tryImg (c :: l) = none := by
  unfold tryImg
  simp only [show matchLitCI "<img".data (c :: l) = none from
    matchLitCI_head_false '<' c "img".data l h]

theorem tryImg_none_lt (x : Char) (l : List Char) (h : charIEq 'i' x = false) :
    tryImg ('<' :: x :: l) = none := by
  unfold tryImg
  have hm : matchLitCI "<img".data ('<' :: x :: l) = none := by
    rw [show matchLitCI "<img".data ('<' :: x :: l) =
        matchLitCI "img".data (x :: l) from by
      rw [show ("<img".data : List Char) = '<' :: "img".data from rfl]
      simp [matchLitCI, charIEq_refl]]
    exact matchLitCI_head_false 'i' x "mg".data l h
  simp only [hm]

theorem tryImg_close_suffix :
    ∀ t ∈ ("</script>".data).tails, tryImg t = none := by decide

theorem tryImg_repl_close (n : Nat) :
    ∀ t, t <:+ (List.replicate n 'a' ++ "</script>".data) → tryImg t = none := by
  induction n with
  | zero =>
    intro t ht
    rw [show (List.replicate 0 'a' ++ "</script>".data : List Char) =
      "</script>".data from rfl] at ht
    exact tryImg_close_suffix t ((List.mem_tails t _).mpr ht)
  | succ n ih =>
    intro t ht
    rw [List.replicate_succ, List.cons_append] at ht
    rcases List.suffix_cons_iff.mp ht with rfl | ht2
    · exact tryImg_none_head 'a' _ (by decide)
    · exact ih t ht2

theorem tryImg_html60k_suffix :
    ∀ t, t <:+ ("<script>".data ++
        (List.replicate 60000 'a' ++ "</script>".data)) → tryImg t = none := by
  intro t ht
  rw [show ("<script>".data ++
        (List.replicate 60000 'a' ++ "</script>".data) : List Char) =
      '<' :: 's' :: 'c' :: 'r' :: 'i' :: 'p' :: 't' :: '>' ::
        (List.replicate 60000 'a' ++ "</script>".data) from rfl] at ht
  rcases List.suffix_cons_iff.mp ht with rfl | ht
  · exact tryImg_none_lt 's' _ (by decide)
  rcases List.suffix_cons_iff.mp ht with rfl | ht
  · exact tryImg_none_head 's' _ (by decide)
  rcases List.suffix_cons_iff.mp ht with rfl | ht
  · exact tryImg_none_head 'c' _ (by decide)
  rcases List.suffix_cons_iff.mp ht with rfl | ht
  · exact tryImg_none_head 'r' _ (by decide)
  rcases List.suffix_cons_iff.mp ht with rfl | ht
  · exact tryImg_none_head 'i' _ (by decide)
  rcases List.suffix_cons_iff.mp ht with rfl | ht
  · exact tryImg_none_head 'p' _ (by decide)
  rcases List.suffix_cons_iff.mp ht with rfl | ht
  · exact tryImg_none_head 't' _ (by decide)
  rcases List.suffix_cons_iff.mp ht with rfl | ht
  · exact tryImg_none_head '>' _ (by decide)
  exact tryImg_repl_close 60000 t ht

theorem extractImgs_html60k : extractImgs html60k = [] := by
  unfold extractImgs
  rw [html60k_data]
  exact scanAll_eq_nil tryImg _ _ tryImg_html60k_suffix

theorem utf8Len_repl (n : Nat) : utf8Len (List.replicate n 'a') = n := by
  unfold utf8Len
  rw [List.map_replicate]
  rw [show Char.utf8Size 'a' = 1 from rfl]
  rw [List.sum_replicate]
  simp

theorem scriptStats_html60k : scriptStats html60k = ⟨1, 1, 60000⟩ := by
  unfold scriptStats
  rw [extractScripts_html60k, List.foldl_cons, List.foldl_nil]
  refine ScriptStats.ext ?_ ?_ ?_
  · rw [stepScript_totalScripts]
  · rw [stepScript_blockingScripts,
      show isBlocking (⟨[], List.replicate 60000 'a'⟩ : ScriptMatch).attrs = true
        from rfl]
    rfl
  · rw [stepScript_inlineBytes,
      show hasSrcAttr (⟨[], List.replicate 60000 'a'⟩ : ScriptMatch).attrs = false
        from rfl]
    rw [if_neg (by simp)]
    rw [show (⟨[], List.replicate 60000 'a'⟩ : ScriptMatch).body =
        List.replicate 60000 'a' from rfl]
    rw [utf8Len_repl]

theorem imgStats_html60k : imgStats html60k = ⟨0, 0, 0⟩ := by
  unfold imgStats
  rw [extractImgs_html60k]
  rfl

/-!  ## Claim theorems -/

/-- C1: the scorer is a pure function of the six counts and, for every tuple
of counts, returns 100 minus the sum of exactly the spec's penalties —
`(totalScripts - 10) * 2` when `totalScripts > 10`, `(blockingScripts - 5) * 4`
when `blockingScripts > 5`, a flat 15 when `inlineBytes > 50000`, an
additional flat 20 when `inlineBytes > 150000`, a flat 10 when
`totalImages > 0` and `noLazy / totalImages > 0.5`, and `suspectedLarge * 5`
when `suspectedLarge > 0` — clamped below at 0 (`specScore`). -/
theorem claim_C1_scorer (ts bs ib ti nl sl : Nat) :
    perfScore ts bs ib ti nl sl = specScore ts bs ib ti nl sl :=
  perfScore_eq_specScore ts bs ib ti nl sl

/-- C2: for every HTML input (and URL), the `performanceSmellScore` field of
the result is an integer in the closed interval [0, 100]. -/
theorem claim_C2_score_range (url html : String) :
    0 ≤ (analyze url html).performanceSmellScore ∧
      (analyze url html).performanceSmellScore ≤ 100 := by
  rw [analyze_score]
  exact ⟨perfScore_nonneg _ _ _ _ _ _, perfScore_le_100 _ _ _ _ _ _⟩

/-- C7: a fetch outcome with a non-2xx HTTP status makes the call fail with
the fetch-failure error; no result object is produced (extraction never
runs). -/
theorem claim_C7_fetch_failure (url : String) (res : FetchResponse)
    (h : ¬ (200 ≤ res.status ∧ res.status ≤ 299)) :
    speed_heuristics_checker url res =
        Except.error (fetchFailMsg url res.status) ∧
      ∀ r, speed_heuristics_checker url res ≠ Except.ok r := by
  have hok : responseOk res = false := by
    simp only [responseOk, Bool.and_eq_false_iff, decide_eq_false_iff_not]
    omega
  refine ⟨?_, ?_⟩
  · simp [speed_heuristics_checker, hok]
  · intro r
    simp [speed_heuristics_checker, hok]

theorem claim_C7_fetch_failure_witness :
    speed_heuristics_checker "http://a" ⟨404, "<p>hi</p>"⟩ =
        Except.error (fetchFailMsg "http://a" 404) ∧
      ∀ r, speed_heuristics_checker "http://a" ⟨404, "<p>hi</p>"⟩ ≠ Except.ok r :=
  claim_C7_fetch_failure "http://a" ⟨404, "<p>hi</p>"⟩ (by decide)

/-- C8: extraction, scoring and reporting form a deterministic pure function
of the HTML text (and URL): identical HTML strings give identical result
objects, field for field, notes included. -/
theorem claim_C8_deterministic (url h1 h2 : String) (h : h1 = h2) :
    analyze url h1 = analyze url h2 := by rw [h]

theorem claim_C8_deterministic_witness :
    analyze "u" "<img src=\"a.png\">" = analyze "u" "<img src=\"a.png\">" :=
  claim_C8_deterministic "u" "<img src=\"a.png\">" "<img src=\"a.png\">" rfl

/-- C9: the notes sequence always has at least 3 entries (script-count note,
blocking-status note and image-status note are emitted unconditionally), and
at most 5. -/
theorem claim_C9_notes_at_least_three (url html : String) :
    3 ≤ (analyze url html).notes.length ∧ (analyze url html).notes.length ≤ 5 := by
  rw [analyze_notes, mkNotes_length]
  split_ifs <;> omega

/-- C10: the classified counts never exceed the totals: `blockingScripts ≤
totalScripts`, `imagesMissingLazyLoad ≤ totalImages`, and
`suspectedLargeImages ≤ totalImages`. -/
theorem claim_C10_count_bounds (url html : String) :
    (analyze url html).blockingScripts ≤ (analyze url html).totalScripts ∧
      (analyze url html).imagesMissingLazyLoad ≤ (analyze url html).totalImages ∧
      (analyze url html).suspectedLargeImages ≤ (analyze url html).totalImages := by
  have hs : (analyze url html).blockingScripts ≤ (analyze url html).totalScripts := by
    show (scriptStats html).blockingScripts ≤ (scriptStats html).totalScripts
    rw [scriptStats_eq]
    exact List.countP_le_length _
  have hi1 : (analyze url html).imagesMissingLazyLoad ≤ (analyze url html).totalImages := by
    show (imgStats html).noLazy ≤ (imgStats html).totalImages
    rw [imgStats_eq]
    exact List.countP_le_length _
  have hi2 : (analyze url html).suspectedLargeImages ≤ (analyze url html).totalImages := by
    show (imgStats html).suspectedLarge ≤ (imgStats html).totalImages
    rw [imgStats_eq]
    exact List.countP_le_length _
  exact ⟨hs, hi1, hi2⟩

/-- C6: the notes are produced in the fixed order — script-count note always;
blocking-count note when `blockingScripts > 0`, otherwise the async/defer
note; inline-size note (whole kilobytes) when `inlineBytes > 0`; the
`"<noLazy>/<totalImages> images missing loading=\"lazy\"."` note when
`totalImages > 0`, otherwise the no-images note; large-image-count note when
`suspectedLarge > 0` — and the sequence has between 2 and 5 entries and is
never empty. -/
theorem claim_C6_notes_order :
    (∀ ts bs ib ti nl sl : Nat, mkNotes ts bs ib ti nl sl =
      [s!"{ts} <script> tags detected."] ++
      (if 0 < bs then
          [s!"{bs} script(s) without async/defer (possible render-blockers)."]
        else ["Most scripts appear async/defer ✅"]) ++
      (if 0 < ib then [s!"Inline JS total ~{roundKB ib}KB."] else []) ++
      (if 0 < ti then [s!"{nl}/{ti} images missing loading=\"lazy\"."]
        else ["No <img> tags detected."]) ++
      (if 0 < sl then
          [s!"{sl} image(s) look very large ( >1000px dimension hints )."]
        else [])) ∧
    (∀ ts bs ib ti nl sl : Nat,
      2 ≤ (mkNotes ts bs ib ti nl sl).length ∧
        (mkNotes ts bs ib ti nl sl).length ≤ 5 ∧
        mkNotes ts bs ib ti nl sl ≠ []) ∧
    (∀ url html : String, (analyze url html).notes =
      mkNotes (scriptStats html).totalScripts (scriptStats html).blockingScripts
        (scriptStats html).inlineBytes (imgStats html).totalImages
        (imgStats html).noLazy (imgStats html).suspectedLarge) := by
  refine ⟨mkNotes_eq, ?_, analyze_notes⟩
  intro ts bs ib ti nl sl
  have h := mkNotes_length ts bs ib ti nl sl
  have hne : (mkNotes ts bs ib ti nl sl).length ≠ 0 := by
    rw [h]; split_ifs <;> omega
  refine ⟨?_, ?_, ?_⟩
  · rw [h]; split_ifs <;> omega
  · rw [h]; split_ifs <;> omega
  · intro hnil
    exact hne (by rw [hnil]; rfl)

/-- C3: a matched script is classified as blocking iff its attribute text
contains neither a `defer` nor an `async` token under word-boundary,
case-insensitive matching; the classification depends only on the attribute
text (so it applies uniformly to inline and external scripts), and
`blockingScripts` counts exactly the blocking matches. -/
theorem claim_C3_blocking :
    (∀ attrs : List Char, isBlocking attrs = true ↔
        (¬ HasTokenCI "defer".data attrs ∧ ¬ HasTokenCI "async".data attrs)) ∧
    (∀ url html : String, (analyze url html).blockingScripts =
        (extractScripts html).countP (fun m => isBlocking m.attrs)) := by
  constructor
  · intro attrs
    have hd := testWord_iff_hasToken "defer".data attrs (by decide)
    have ha := testWord_iff_hasToken "async".data attrs (by decide)
    simp only [isBlocking, Bool.and_eq_true, Bool.not_eq_true']
    constructor
    · rintro ⟨h1, h2⟩
      refine ⟨fun hc => ?_, fun hc => ?_⟩
      · rw [← hd] at hc
        rw [h1] at hc
        cases hc
      · rw [← ha] at hc
        rw [h2] at hc
        cases hc
    · rintro ⟨h1, h2⟩
      constructor
      · cases hq : testWord "defer".data attrs
        · rfl
        · exact absurd (hd.mp hq) h1
      · cases hq : testWord "async".data attrs
        · rfl
        · exact absurd (ha.mp hq) h2
  · intro url html
    show (scriptStats html).blockingScripts = _
    rw [scriptStats_eq]

/-- C4: a matched image counts as suspected-large iff its `src` attribute
value, lower-cased, ends with `.png`, `.jpg` or `.jpeg` and its explicit
`width` or `height` attribute parses to an integer strictly greater than
1000; a returned dimension value always comes from an explicit all-digit
quoted declaration, and such a declaration exists iff a value is returned
(so missing or non-numeric dimensions never count); the image with
`src="icon.svg" width="2000"` does not count. -/
theorem claim_C4_suspected_large :
    (∀ attrs : List Char, isSuspectedLarge attrs = true ↔
        ((".png".data.isSuffixOf (srcValOf attrs) = true ∨
          ".jpg".data.isSuffixOf (srcValOf attrs) = true ∨
          ".jpeg".data.isSuffixOf (srcValOf attrs) = true) ∧
         ((∃ n, widthValOf attrs = some n ∧ 1000 < n) ∨
          (∃ n, heightValOf attrs = some n ∧ 1000 < n)))) ∧
    (∀ (attrs : List Char) (n : Nat),
      widthValOf attrs = some n → HasNumDecl "width".data attrs n) ∧
    (∀ (attrs : List Char) (n : Nat),
      heightValOf attrs = some n → HasNumDecl "height".data attrs n) ∧
    (∀ attrs : List Char,
      (∃ n, HasNumDecl "width".data attrs n) ↔ (widthValOf attrs).isSome = true) ∧
    (∀ attrs : List Char,
      (∃ n, HasNumDecl "height".data attrs n) ↔ (heightValOf attrs).isSome = true) ∧
    isSuspectedLarge " src=\"icon.svg\" width=\"2000\"".data = false ∧
    (analyze "u" "<img src=\"icon.svg\" width=\"2000\">").suspectedLargeImages = 0 ∧
    (∀ url html : String, (analyze url html).suspectedLargeImages =
      (extractImgs html).countP (fun a => isSuspectedLarge a)) := by
  refine ⟨?_, ?_, ?_, ?_, ?_, ?_, ?_, ?_⟩
  · intro attrs
    simp only [isSuspectedLarge, Bool.and_eq_true, Bool.or_eq_true, bigDim_iff]
    rw [or_assoc]
  · intro attrs n h
    exact numValOf_eq_some "width".data attrs n h
  · intro attrs n h
    exact numValOf_eq_some "height".data attrs n h
  · intro attrs
    exact hasNumDecl_iff_isSome "width".data attrs rfl
  · intro attrs
    exact hasNumDecl_iff_isSome "height".data attrs rfl
  · decide
  · decide
  · intro url html
    show (imgStats html).suspectedLarge = _
    rw [imgStats_eq]

/-- C5: the inline byte weight sums the UTF-8 byte lengths of the bodies of
exactly the matched scripts without a src attribute with a non-empty quoted
value (`HasSrcValue` characterises that test); on the page whose only
content is one inline script with a 60,000-byte body, the inline weight is
60,000, the score is 85 (only the 15-point inline penalty applies — not the
150,000 tier, whose extra 20 would give at most 65), and `inlineScriptKB`
is 59. -/
theorem claim_C5_inline_weight :
    (∀ html : String, (scriptStats html).inlineBytes =
        (((extractScripts html).filter (fun m => !hasSrcAttr m.attrs)).map
          (fun m => utf8Len m.body)).sum) ∧
    (∀ attrs : List Char, hasSrcAttr attrs = true ↔ HasSrcValue attrs) ∧
    (scriptStats html60k).inlineBytes = 60000 ∧
    (analyze "u" html60k).performanceSmellScore = 85 ∧
    (analyze "u" html60k).inlineScriptKB = 59 := by
  refine ⟨?_, hasSrcAttr_iff, ?_, ?_, ?_⟩
  · intro html
    rw [scriptStats_eq]
  · rw [scriptStats_html60k]
  · rw [analyze_score, scriptStats_html60k, imgStats_html60k]
    decide
  · rw [analyze_kb, scriptStats_html60k]
    decide

theorem claim_C1_scorer_witness :
    perfScore 15 15 60000 4 3 2 = specScore 15 15 60000 4 3 2 :=
  claim_C1_scorer 15 15 60000 4 3 2

theorem claim_C2_score_range_witness :
    0 ≤ (analyze "u" "<p>x</p>").performanceSmellScore ∧
      (analyze "u" "<p>x</p>").performanceSmellScore ≤ 100 :=
  claim_C2_score_range "u" "<p>x</p>"

theorem claim_C3_blocking_witness :
    (analyze "u" "<script>1</script>").blockingScripts =
      (extractScripts "<script>1</script>").countP (fun m => isBlocking m.attrs) :=
  claim_C3_blocking.2 "u" "<script>1</script>"

theorem claim_C4_suspected_large_witness :
    HasNumDecl "width".data " width=\"2000\"".data 2000 :=
  claim_C4_suspected_large.2.1 " width=\"2000\"".data 2000 (by decide)

theorem claim_C5_inline_weight_witness :
    (scriptStats html60k).inlineBytes = 60000 :=
  claim_C5_inline_weight.2.2.1

theorem claim_C6_notes_order_witness :
    (analyze "u" "<p>x</p>").notes =
      mkNotes (scriptStats "<p>x</p>").totalScripts
        (scriptStats "<p>x</p>").blockingScripts
        (scriptStats "<p>x</p>").inlineBytes (imgStats "<p>x</p>").totalImages
        (imgStats "<p>x</p>").noLazy (imgStats "<p>x</p>").suspectedLarge :=
  claim_C6_notes_order.2.2 "u" "<p>x</p>"

theorem claim_C9_notes_at_least_three_witness :
    3 ≤ (analyze "u" "").notes.length ∧ (analyze "u" "").notes.length ≤ 5 :=
  claim_C9_notes_at_least_three "u" ""

theorem claim_C10_count_bounds_witness :
    (analyze "u" "<img>").blockingScripts ≤ (analyze "u" "<img>").totalScripts ∧
      (analyze "u" "<img>").imagesMissingLazyLoad ≤ (analyze "u" "<img>").totalImages ∧
      (analyze "u" "<img>").suspectedLargeImages ≤ (analyze "u" "<img>").totalImages :=
  claim_C10_count_bounds "u" "<img>"

end SpeedCheck
